import Mathlib

/-
Verification of the backstage-scorecard-automation pipeline.

The development shallowly embeds the repository's Python sources:
  agents/A1_repo_loader_agent.py  (URL parsing, file classification)
  agents/A2_scoring_agent.py      (scoring, fallback scorecard, assembly)
  agents/A3_commit_agent.py       (commit request construction)
  llm_automation/graph.py         (pipeline routing)
Pure functions become Lean functions; the network and the language model
are modeled by explicit outcome values fed to the control flow that the
source wraps around them.
-/

namespace Backstage

/-! ## String utilities modeling Python primitives -/

/-- Models Python `str.lower()` (ASCII case folding, which is all the
repository's comparisons rely on). -/
def lower (s : String) : String := ⟨s.data.map Char.toLower⟩

/-- Models Python `pat in s` (substring containment). -/
def strContains (s pat : String) : Bool :=
  s.data.tails.any (fun t => pat.data.isPrefixOf t)

/-- Models Python `s.startswith(pat)`. -/
def strStartsWith (s pat : String) : Bool := pat.data.isPrefixOf s.data

/-- Extension part of `os.path.splitext` on a bare file name (no directory
separator): everything from the last dot on, unless the characters before
that dot are all dots (leading dots do not start an extension). -/
def extSplit (cs : List Char) : List Char :=
  let r := cs.reverse
  let pre := r.takeWhile (fun c => !(c == '.'))
  match r.dropWhile (fun c => !(c == '.')) with
  | [] => []
  | _ :: before =>
    if before.any (fun c => !(c == '.')) then '.' :: pre.reverse else []

/-- Models `os.path.splitext(name)[1]` for a bare file name. -/
def pyExt (s : String) : String := ⟨extSplit s.data⟩

/-! ## Loader: `A1_repo_loader_agent.py` -/

/-- One fetched repository file, as collected by `traverse_repository`:
`extension` is `os.path.splitext(item_name)[1].lower()` in the source. -/
structure FileData where
  path : String
  name : String
  size : Nat
  content : String
  extension : String
deriving DecidableEq

/-- The six categories of `_organize_files_by_type`. -/
inductive Category where
  | source_code
  | config_files
  | documentation
  | build_files
  | ci_cd
  | other
deriving DecidableEq

/-- Source-code extension set (line 253 of the loader). -/
def sourceCodeExts : List String :=
  [(".py"), (".js"), (".ts"), (".jsx"), (".tsx"), (".java"), (".cpp"),
   (".c"), (".cs"), (".go"), (".rb"), (".php"), (".swift"), (".kt"),
   (".rs"), (".scala")]

/-- Configuration extension set (line 257). -/
def configExts : List String :=
  [(".json"), (".yml"), (".yaml"), (".xml"), (".toml"), (".ini"), (".conf")]

/-- Configuration file-name set (line 257). -/
def configNames : List String := [("dockerfile"), ("makefile")]

/-- Documentation extension set (line 261). -/
def docExts : List String := [(".md"), (".txt"), (".rst")]

/-- Build file-name set (line 265). -/
def buildFileNames : List String :=
  [("package.json"), ("requirements.txt"), ("pom.xml"), ("build.gradle"),
   ("setup.py"), ("cargo.toml")]

/-- Rule 1: source-code extensions. -/
def isSourceCodeFile (f : FileData) : Bool := sourceCodeExts.contains f.extension

/-- Rule 2: config extensions or the fixed config file names. -/
def isConfigFile (f : FileData) : Bool :=
  configExts.contains f.extension || configNames.contains (lower f.name)

/-- Rule 3: doc extensions or a `readme` substring in the lowered name. -/
def isDocumentationFile (f : FileData) : Bool :=
  docExts.contains f.extension || strContains (lower f.name) ("readme")

/-- Rule 4: fixed build file names. -/
def isBuildFile (f : FileData) : Bool := buildFileNames.contains (lower f.name)

/-- Rule 5: CI/CD path markers or a `.gitlab-ci` name. -/
def isCicdFile (f : FileData) : Bool :=
  strContains (lower f.path) (".github/workflows") ||
  strContains (lower f.path) ("jenkins") ||
  strStartsWith (lower f.name) (".gitlab-ci")

/-- The if/elif chain of `_organize_files_by_type`, one file at a time. -/
def categorize (f : FileData) : Category :=
  if isSourceCodeFile f then Category.source_code
  else if isConfigFile f then Category.config_files
  else if isDocumentationFile f then Category.documentation
  else if isBuildFile f then Category.build_files
  else if isCicdFile f then Category.ci_cd
  else Category.other

/-- The `organized` dictionary built by `_organize_files_by_type`. -/
structure Organized where
  source_code : List FileData
  config_files : List FileData
  documentation : List FileData
  build_files : List FileData
  ci_cd : List FileData
  other : List FileData
deriving DecidableEq

/-- The initial empty `organized` dictionary. -/
def emptyOrganized : Organized := ⟨[], [], [], [], [], []⟩

/-- Category projection out of the organized record. -/
def categoryList (o : Organized) : Category → List FileData
  | Category.source_code => o.source_code
  | Category.config_files => o.config_files
  | Category.documentation => o.documentation
  | Category.build_files => o.build_files
  | Category.ci_cd => o.ci_cd
  | Category.other => o.other

/-- One iteration of the loop of `_organize_files_by_type`: append the file
to the list of its category. -/
def addFile (o : Organized) (f : FileData) : Organized :=
  match categorize f with
  | Category.source_code => { o with source_code := o.source_code ++ [f] }
  | Category.config_files => { o with config_files := o.config_files ++ [f] }
  | Category.documentation => { o with documentation := o.documentation ++ [f] }
  | Category.build_files => { o with build_files := o.build_files ++ [f] }
  | Category.ci_cd => { o with ci_cd := o.ci_cd ++ [f] }
  | Category.other => { o with other := o.other ++ [f] }

/-- Models `_organize_files_by_type` (loader lines 236-276). -/
def organizeFilesByType (files : List FileData) : Organized :=
  files.foldl addFile emptyOrganized

/-- All six categories, in declaration order. -/
def allCategories : List Category :=
  [Category.source_code, Category.config_files, Category.documentation,
   Category.build_files, Category.ci_cd, Category.other]

/-- The ordered rule table of the classifier; `categorize` is proved to be
its first-match semantics. -/
def orderedRules : List ((FileData → Bool) × Category) :=
  [(isSourceCodeFile, Category.source_code),
   (isConfigFile, Category.config_files),
   (isDocumentationFile, Category.documentation),
   (isBuildFile, Category.build_files),
   (isCicdFile, Category.ci_cd)]

/-- First matching rule wins; files matching no rule are `other`. -/
def firstMatchingRule (f : FileData) : Category :=
  match orderedRules.find? (fun r => r.1 f) with
  | some r => r.2
  | none => Category.other

/-! URL parsing, `parse_github_url` (loader lines 30-44). The function
receives the path component of the URL (the result of
`urlparse(repo_url).path`). -/

/-- Models `str.strip('/')` on the character list. -/
def stripSlashChars (cs : List Char) : List Char :=
  ((cs.dropWhile (fun c => c == '/')).reverse.dropWhile (fun c => c == '/')).reverse

/-- Models `str.split('/')`. -/
def splitSlash : List Char → List (List Char)
  | [] => [[]]
  | c :: rest =>
    if c == '/' then [] :: splitSlash rest
    else
      match splitSlash rest with
      | [] => [[c]]
      | p :: ps => (c :: p) :: ps

/-- Models `str.replace('.git', '')`: every occurrence of `.git` is removed,
scanning left to right without overlap. -/
def removeGit : List Char → List Char
  | [] => []
  | '.' :: 'g' :: 'i' :: 't' :: rest => removeGit rest
  | c :: rest => c :: removeGit rest

/-- Models `parse_github_url` applied to the URL's path component: strip
slashes, split on `/`, require at least two segments, and remove `.git`
from the second segment. -/
def parseGithubUrl (path : String) : Option (String × String) :=
  match splitSlash (stripSlashChars path.data) with
  | owner :: repo :: _ => some (⟨owner⟩, ⟨removeGit repo⟩)
  | _ => none

/-- Modeled from the spec's words for comparison only: removal of a single
trailing `.git` suffix (what the claim asserts the code does). -/
def stripSuffixGit (s : String) : String :=
  if (['.', 'g', 'i', 't']).isSuffixOf s.data then ⟨s.data.take (s.data.length - 4)⟩ else s

/-! ## Scorer: `A2_scoring_agent.py` -/

/-- One `(label, score)` choice of a rubric entry. -/
structure ScoreChoice where
  label : String
  value : Int
deriving DecidableEq

/-- One rubric entry of `scorecard_structure`. -/
structure RubricEntry where
  id : Nat
  title : String
  howToScore : String
  scoreChoices : List ScoreChoice
deriving DecidableEq

/-- One rubric area of `scorecard_structure`. -/
structure RubricArea where
  id : Nat
  title : String
  entries : List RubricEntry
deriving DecidableEq

/-- The fixed `scorecard_structure` constant of the scoring agent
(scorer lines 13-150): 4 areas, 10 entries. -/
def scorecardStructure : List RubricArea :=
  [{ id := 1001, title := ("Code Quality"), entries :=
     [{ id := 1, title := ("Documentation"),
        howToScore := ("Technical documentation should be present and accessible."),
        scoreChoices :=
          [⟨("Well documented with comprehensive README and docs"), 100⟩,
           ⟨("Basic documentation present"), 80⟩,
           ⟨("Minimal documentation"), 40⟩,
           ⟨("No documentation"), 0⟩] },
      { id := 2, title := ("Static Code Analysis"),
        howToScore := ("Code should be analyzed for quality and security issues."),
        scoreChoices :=
          [⟨("Comprehensive static analysis with automated checks"), 100⟩,
           ⟨("Basic static analysis implemented"), 70⟩,
           ⟨("Manual code reviews only"), 40⟩,
           ⟨("No static analysis"), 0⟩] },
      { id := 3, title := ("Code Structure"),
        howToScore := ("Code should follow best practices and be well organized."),
        scoreChoices :=
          [⟨("Excellent structure with design patterns"), 100⟩,
           ⟨("Good structure and organization"), 80⟩,
           ⟨("Basic structure present"), 60⟩,
           ⟨("Poor code organization"), 20⟩] }] },
   { id := 1002, title := ("Operations"), entries :=
     [{ id := 4, title := ("CI/CD Pipeline"),
        howToScore := ("Automated build and deployment pipeline should be in place."),
        scoreChoices :=
          [⟨("Full CI/CD with automated testing and deployment"), 100⟩,
           ⟨("CI/CD pipeline configured"), 90⟩,
           ⟨("Basic CI only"), 50⟩,
           ⟨("Manual deployment"), 0⟩] },
      { id := 5, title := ("Dependency Management"),
        howToScore := ("Dependencies should be properly managed and up to date."),
        scoreChoices :=
          [⟨("Automated dependency management with security scanning"), 100⟩,
           ⟨("Regular dependency updates"), 80⟩,
           ⟨("Basic dependency files present"), 60⟩,
           ⟨("No dependency management"), 0⟩] },
      { id := 6, title := ("Configuration Management"),
        howToScore := ("Application configuration should be externalized and secure."),
        scoreChoices :=
          [⟨("Environment-based config with secrets management"), 100⟩,
           ⟨("Basic environment configuration"), 70⟩,
           ⟨("Hardcoded configuration"), 30⟩,
           ⟨("No configuration management"), 0⟩] }] },
   { id := 1003, title := ("Security"), entries :=
     [{ id := 7, title := ("Security Practices"),
        howToScore := ("Security best practices should be implemented."),
        scoreChoices :=
          [⟨("Comprehensive security measures implemented"), 100⟩,
           ⟨("Basic security practices in place"), 70⟩,
           ⟨("Minimal security considerations"), 40⟩,
           ⟨("No security measures"), 0⟩] },
      { id := 8, title := ("Secrets Management"),
        howToScore := ("Secrets and credentials should be properly managed."),
        scoreChoices :=
          [⟨("Secure secrets management with encryption"), 100⟩,
           ⟨("Environment variables for secrets"), 80⟩,
           ⟨("Some hardcoded secrets"), 30⟩,
           ⟨("Exposed secrets in code"), 0⟩] }] },
   { id := 1004, title := ("Testing"), entries :=
     [{ id := 9, title := ("Test Coverage"),
        howToScore := ("Automated tests should cover critical functionality."),
        scoreChoices :=
          [⟨("Comprehensive test suite with high coverage"), 100⟩,
           ⟨("Good test coverage"), 80⟩,
           ⟨("Basic tests present"), 50⟩,
           ⟨("No automated tests"), 0⟩] },
      { id := 10, title := ("Test Quality"),
        howToScore := ("Tests should be well-written and maintainable."),
        scoreChoices :=
          [⟨("Excellent test quality and organization"), 100⟩,
           ⟨("Good test structure"), 80⟩,
           ⟨("Basic test implementation"), 60⟩,
           ⟨("Poor test quality"), 20⟩] }] }]

/-- One entry of the `entries` mapping of a model (or fallback) response:
a numeric score plus free-text details. -/
structure EntryResult where
  score : Int
  details : String
deriving DecidableEq

/-- The repository bundle fields the scorer reads: the metadata name
(`repo_metadata.get('name')`; `none` when metadata is absent) and the
organized file classification. -/
structure RepoData where
  metadataName : Option String
  organized : Organized
deriving DecidableEq

/-- Models `repo_data.get('repo_metadata', {}).get('name', 'unknown-component')`. -/
def repoDisplayName (repo : RepoData) : String :=
  repo.metadataName.getD ("unknown-component")

/-- Models `entries_scores.get(entry_id, {'score': 50, 'details': 'No analysis available'})`
(scorer line 429) over the entries mapping, represented as an association list. -/
def lookupEntry (sd : List (String × EntryResult)) (key : String) : EntryResult :=
  ((sd.find? (fun p => p.1 == key)).map (fun p => p.2)).getD
    { score := 50, details := ("No analysis available") }

/-- Models `_get_score_success` (scorer lines 472-481). -/
def getScoreSuccess (score : Int) : String :=
  if score ≥ 90 then ("excellent")
  else if score ≥ 70 then ("good")
  else if score ≥ 50 then ("warning")
  else ("error")

/-- One expanded entry record of the assembled scorecard. -/
structure EntryScore where
  id : Nat
  title : String
  scorePercent : Int
  scoreSuccess : String
  howToScore : String
  scoreChoices : List ScoreChoice
  details : String
deriving DecidableEq

/-- One area record of the assembled scorecard. -/
structure AreaScore where
  id : Nat
  title : String
  scorePercent : Int
  scoreSuccess : String
  scoreEntries : List EntryScore
deriving DecidableEq

/-- The assembled scorecard (`entityRef` kind is the constant `component`;
the generation timestamp carries no verified content and is omitted). -/
structure Scorecard where
  name : String
  scorePercent : Int
  scoreSuccess : String
  areaScores : List AreaScore
deriving DecidableEq

/-- The per-entry body of the assembly loop of `_build_oriflame_scorecard`
(scorer lines 427-442). -/
def buildEntryScore (sd : List (String × EntryResult)) (entry : RubricEntry) : EntryScore :=
  let esd := lookupEntry sd (toString entry.id)
  { id := entry.id, title := entry.title, scorePercent := esd.score,
    scoreSuccess := getScoreSuccess esd.score, howToScore := entry.howToScore,
    scoreChoices := entry.scoreChoices, details := esd.details }

/-- The per-area body of the assembly loop (scorer lines 423-453):
the area score is `int(area_total_score / len(entries))`, i.e. the
truncated quotient, guarded to 0 for an empty entry list. -/
def buildAreaScore (sd : List (String × EntryResult)) (area : RubricArea) : AreaScore :=
  let areaEntries := area.entries.map (buildEntryScore sd)
  let areaTotal : Int := (areaEntries.map (fun e => e.scorePercent)).sum
  let areaScorePercent : Int :=
    if area.entries.isEmpty then 0 else Int.tdiv areaTotal (area.entries.length : Int)
  { id := area.id, title := area.title, scorePercent := areaScorePercent,
    scoreSuccess := getScoreSuccess areaScorePercent, scoreEntries := areaEntries }

/-- Models `_build_oriflame_scorecard` (scorer lines 413-470). -/
def buildOriflameScorecard (sd : List (String × EntryResult)) (repo : RepoData) : Scorecard :=
  let areaScores := scorecardStructure.map (buildAreaScore sd)
  let overall : Int :=
    if areaScores.isEmpty then 0
    else Int.tdiv ((areaScores.map (fun a => a.scorePercent)).sum) (areaScores.length : Int)
  { name := repoDisplayName repo, scorePercent := overall,
    scoreSuccess := getScoreSuccess overall, areaScores := areaScores }

/-- The `basic_scores` table of `_create_basic_scorecard` (scorer lines
344-355); a Python truthiness test on a list is emptiness. -/
def basicScores (o : Organized) : List (String × EntryResult) :=
  [(("1"), { score := if o.documentation.isEmpty then 20 else 80,
             details := ("Documentation analysis based on file presence") }),
   (("2"), { score := 60, details := ("Basic static analysis assessment") }),
   (("3"), { score := if o.source_code.isEmpty then 30 else 70,
             details := ("Code structure evaluation") }),
   (("4"), { score := if o.ci_cd.isEmpty then 30 else 80,
             details := ("CI/CD pipeline assessment") }),
   (("5"), { score := if o.build_files.isEmpty then 40 else 70,
             details := ("Dependency management evaluation") }),
   (("6"), { score := if o.config_files.isEmpty then 30 else 60,
             details := ("Configuration management assessment") }),
   (("7"), { score := 55, details := ("Basic security practices evaluation") }),
   (("8"), { score := 70, details := ("Secrets management assessment") }),
   (("9"), { score := 40, details := ("Test coverage evaluation") }),
   (("10"), { score := 50, details := ("Test quality assessment") })]

/-- Models `_create_basic_scorecard` (scorer lines 335-358): the
deterministic fallback heuristic scorecard. -/
def createBasicScorecard (repo : RepoData) : Scorecard :=
  buildOriflameScorecard (basicScores repo.organized) repo

/-- JSON values, as produced by `json.loads` on the model response; numbers
are modeled as integers (the rubric flows only involve integral scores). -/
inductive Json where
  | null
  | bool (b : Bool)
  | num (n : Int)
  | str (s : String)
  | arr (xs : List Json)
  | obj (kvs : List (String × Json))

/-- Models `dict.get(key)` on a parsed JSON object. -/
def jsonGet (kvs : List (String × Json)) (k : String) : Option Json :=
  (kvs.find? (fun p => p.1 == k)).map (fun p => p.2)

/-- Is a JSON value a number (`isinstance(x, (int, float))`). -/
def jsonIsNum : Json → Bool
  | Json.num _ => true
  | _ => false

/-- Models `_validate_ai_response` (scorer lines 311-333): top-level object,
an `entries` mapping (default empty), non-empty, and every entry an object
carrying a numeric `score` and some `details`. -/
def validateAiResponse (j : Json) : Bool :=
  match j with
  | Json.obj kvs =>
    match (jsonGet kvs ("entries")).getD (Json.obj []) with
    | Json.obj entries =>
      !entries.isEmpty &&
      entries.all (fun p =>
        match p.2 with
        | Json.obj fields =>
          ((jsonGet fields ("score")).map jsonIsNum).getD false &&
          (jsonGet fields ("details")).isSome
        | _ => false)
    | _ => false
  | _ => false

/-- The details value stored by the assembly; only string details occur in
the program's validated flows. -/
def jsonDetailsString : Json → String
  | Json.str s => s
  | _ => ("")

/-- Typed extraction of one entry of a validated response. -/
def extractEntryResult (j : Json) : Option EntryResult :=
  match j with
  | Json.obj fields =>
    match jsonGet fields ("score"), jsonGet fields ("details") with
    | some (Json.num n), some d => some { score := n, details := jsonDetailsString d }
    | _, _ => none
  | _ => none

/-- Typed extraction of the `entries` mapping of a validated response. -/
def extractEntries (j : Json) : Option (List (String × EntryResult)) :=
  match j with
  | Json.obj kvs =>
    match (jsonGet kvs ("entries")).getD (Json.obj []) with
    | Json.obj entries =>
      entries.mapM (fun p => (extractEntryResult p.2).map (fun r => (p.1, r)))
    | _ => none
  | _ => none

/-- The observable outcome of one retry iteration of `analyze_repository`
(scorer lines 233-276): the model call raised; the response was missing or
empty; the cleaned text was empty; `json.loads` raised; or a JSON value was
parsed. -/
inductive AttemptOutcome where
  | raised (msg : String)
  | empty
  | emptyAfterClean
  | unparsable (raw : String)
  | parsed (j : Json)

/-- The retry loop of `analyze_repository`: an `error` result models an
exception escaping to the outer handler; `json.loads` failure on the final
attempt returns the fallback scorecard directly (scorer line 275); a
validated parse builds the scorecard and returns. -/
def loopRun (repo : RepoData) : List AttemptOutcome → Except String Scorecard
  | [] => Except.error ("analysis failed")
  | [a] =>
    match a with
    | AttemptOutcome.raised msg => Except.error msg
    | AttemptOutcome.empty => Except.error ("AI returned empty response after all retries")
    | AttemptOutcome.emptyAfterClean => Except.error ("AI response is empty after cleaning")
    | AttemptOutcome.unparsable _ => Except.ok (createBasicScorecard repo)
    | AttemptOutcome.parsed j =>
      if validateAiResponse j then
        match extractEntries j with
        | some sd => Except.ok (buildOriflameScorecard sd repo)
        | none => Except.error ("AI response has invalid structure")
      else Except.error ("AI response has invalid structure")
  | a :: rest =>
    match a with
    | AttemptOutcome.raised msg => Except.error msg
    | AttemptOutcome.empty => loopRun repo rest
    | AttemptOutcome.emptyAfterClean => loopRun repo rest
    | AttemptOutcome.unparsable _ => loopRun repo rest
    | AttemptOutcome.parsed j =>
      if validateAiResponse j then
        match extractEntries j with
        | some sd => Except.ok (buildOriflameScorecard sd repo)
        | none => Except.error ("AI response has invalid structure")
      else loopRun repo rest

/-- Models `analyze_repository` (scorer lines 209-281): the outer handler
turns any escaped exception into the fallback scorecard. -/
def analyzeRepository (repo : RepoData) (attempts : List AttemptOutcome) : Scorecard :=
  match loopRun repo attempts with
  | Except.ok sc => sc
  | Except.error _ => createBasicScorecard repo

/-- No attempt produced a response that passes structural validation. -/
def noUsableResponse (attempts : List AttemptOutcome) : Prop :=
  ∀ j, AttemptOutcome.parsed j ∈ attempts → validateAiResponse j = false

/-- The manifest names searched in `build_files` by
`extract_key_files_content` (scorer line 191). -/
def manifestNames : List String :=
  [("package.json"), ("requirements.txt"), ("pom.xml"), ("cargo.toml")]

/-- The build-file search loop of `extract_key_files_content` (scorer lines
190-193): the first build file whose lowered name is a known manifest. -/
def findManifestFile (o : Organized) : Option FileData :=
  o.build_files.find? (fun f => manifestNames.contains (lower f.name))

/-- Models `extract_key_files_content` (scorer lines 178-207) as the ordered
key/value list the Python dict accumulates. -/
def extractKeyFilesContent (repo : RepoData) : List (String × String) :=
  let o := repo.organized
  let readmePart :=
    match o.documentation.find? (fun f => strContains (lower f.name) ("readme")) with
    | some f => [(("readme"), f.content.take 2000)]
    | none => []
  let manifestPart :=
    match findManifestFile o with
    | some f => [(f.name, f.content.take 1000)]
    | none => []
  let cicdPart :=
    match o.ci_cd.head? with
    | some f => [(("cicd_") ++ f.name, f.content.take 1000)]
    | none => []
  let sourceParts :=
    (o.source_code.take 3).enum.map
      (fun p => (("source_") ++ toString (p.1 + 1) ++ ("_") ++ p.2.name, p.2.content.take 1500))
  readmePart ++ manifestPart ++ cicdPart ++ sourceParts

/-! ## Committer: `A3_commit_agent.py` -/

/-- The fixed target file name (`self.target_file`, committer line 19). -/
def targetFile : String := ("component-score.json")

/-- The observable outcome of the HTTP lookup inside `_get_file_sha`
(committer lines 88-106). -/
inductive ShaLookupResponse where
  | ok (sha : String)
  | notFound
  | otherStatus (code : Nat)
  | raised (msg : String)
deriving DecidableEq

/-- Models `_get_file_sha`: the stored revision marker on a 200 response,
and `None` on 404, any other status, or an exception. -/
def getFileSha : ShaLookupResponse → Option String
  | ShaLookupResponse.ok sha => some sha
  | ShaLookupResponse.notFound => none
  | ShaLookupResponse.otherStatus _ => none
  | ShaLookupResponse.raised _ => none

/-- The create-or-update write request of `commit_scorecard`; `sha = none`
models the omitted update-marker field. -/
structure CommitRequest where
  message : String
  content : String
  branch : String
  sha : Option String
deriving DecidableEq

/-- Models the `commit_data` construction of `commit_scorecard` (committer
lines 52-64): base fields first, then the `sha` key added only when a
current revision marker exists. -/
def commitData (currentSha : Option String) (encodedContent : String) : CommitRequest :=
  let base : CommitRequest :=
    { message := ("Update ") ++ targetFile ++ (" with automated scorecard analysis"),
      content := encodedContent, branch := ("main"), sha := none }
  match currentSha with
  | some sha => { base with sha := some sha }
  | none => base

/-- Models the write URL of `commit_scorecard` (committer line 67). -/
def commitUrl (owner repoName : String) : String :=
  ("https://api.github.com/repos/") ++ owner ++ ("/") ++ repoName ++ ("/contents/") ++ targetFile

/-! ## Orchestrator routing: `llm_automation/graph.py` -/

/-- The routing-relevant fields of `ScorecardAgentState`: a missing
`processing_status` key reads as the empty string via `state.get`, and a
missing or `None` error list is truthiness-equivalent to the empty list. -/
structure PipelineState where
  repoUrl : Option String
  processingStatus : String
  errors : List String
deriving DecidableEq

/-- The `routing_map` dictionary of `check_success` (graph lines 152-156). -/
def routingMap : List (String × String) :=
  [(("repo_loaded"), ("scoring_agent")),
   (("scoring_complete"), ("commit_agent")),
   (("complete"), ("END"))]

/-- Models `check_success` (graph lines 145-158): terminate on a `failed`
status or a non-empty error list, else route by the status, defaulting to
termination for unknown statuses. -/
def checkSuccess (st : PipelineState) : String :=
  if st.processingStatus = ("failed") ∨ st.errors ≠ [] then ("END")
  else ((routingMap.find? (fun p => p.1 == st.processingStatus)).map (fun p => p.2)).getD ("END")

/-! ## Theorems -/

/-- Appending one file touches exactly the list of its category. -/
theorem categoryList_addFile (o : Organized) (f : FileData) (c : Category) :
    categoryList (addFile o f) c =
      if categorize f == c then categoryList o c ++ [f] else categoryList o c := by
  cases hc : categorize f <;> cases c <;> simp [addFile, categoryList, hc]

/-- The classifier loop is a per-category filter, relative to a seed. -/
theorem organize_foldl (files : List FileData) (o : Organized) (c : Category) :
    categoryList (files.foldl addFile o) c =
      categoryList o c ++ files.filter (fun f => categorize f == c) := by
  induction files generalizing o with
  | nil => simp
  | cons f fs ih =>
    rw [List.foldl_cons, ih, List.filter_cons]
    by_cases h : categorize f = c
    · rw [categoryList_addFile]
      simp [h]
    · rw [categoryList_addFile]
      simp [beq_iff_eq, h]

/-- Each category list of `_organize_files_by_type` is the order-preserving
filter of the input by the classifier. -/
theorem organize_filter (files : List FileData) (c : Category) :
    categoryList (organizeFilesByType files) c =
      files.filter (fun f => categorize f == c) := by
  have he : categoryList emptyOrganized c = [] := by cases c <;> rfl
  rw [organizeFilesByType, organize_foldl, he, List.nil_append]

/-- The six category filters partition the input length. -/
theorem filter_lengths_sum (files : List FileData) :
    (allCategories.map (fun c => (files.filter (fun f => categorize f == c)).length)).sum
      = files.length := by
  induction files with
  | nil => simp [allCategories]
  | cons f fs ih =>
    cases hc : categorize f <;>
      simp only [allCategories, List.map_cons, List.map_nil, List.sum_cons, List.sum_nil,
        List.filter_cons, hc, beq_iff_eq, List.length_cons] at ih ⊢ <;>
      simp <;> omega

/-- The six category filters preserve multiplicity of every file. -/
theorem filter_counts_sum (files : List FileData) (g : FileData) :
    (allCategories.map (fun c => (files.filter (fun f => categorize f == c)).count g)).sum
      = files.count g := by
  induction files with
  | nil => simp [allCategories]
  | cons f fs ih =>
    cases hc : categorize f <;>
      simp only [allCategories, List.map_cons, List.map_nil, List.sum_cons, List.sum_nil,
        List.filter_cons, hc, beq_iff_eq, List.count_cons] at ih ⊢ <;>
      simp [List.count_cons] <;> omega

/-- The if/elif chain equals first-match over the ordered rule table. -/
theorem categorize_eq_firstMatch (f : FileData) : categorize f = firstMatchingRule f := by
  rw [categorize, firstMatchingRule, orderedRules]
  cases h1 : isSourceCodeFile f <;> cases h2 : isConfigFile f <;>
    cases h3 : isDocumentationFile f <;> cases h4 : isBuildFile f <;>
    cases h5 : isCicdFile f <;> simp [List.find?, h1, h2, h3, h4, h5]

/-- C2: classification is a total function: every fetched file lands in
exactly one of the 6 categories (each category list is the filter of the
input, the category lengths and per-file multiplicities partition the
input), and the rules are evaluated in the fixed order
source-code extensions, config extensions/names, doc extensions or
`readme` substring, build filenames, CI markers, else `other`, with the
first matching rule winning. -/
theorem classification_exactly_one :
  ∀ files : List FileData,
    (∀ c, categoryList (organizeFilesByType files) c = files.filter (fun f => categorize f == c))
    ∧ ((allCategories.map (fun c => (categoryList (organizeFilesByType files) c).length)).sum
        = files.length)
    ∧ (∀ g : FileData,
        (allCategories.map (fun c => (categoryList (organizeFilesByType files) c).count g)).sum
          = files.count g)
    ∧ (∀ f : FileData, categorize f = firstMatchingRule f) := by
  intro files
  refine ⟨organize_filter files, ?_, ?_, categorize_eq_firstMatch⟩
  · simp only [organize_filter]
    exact filter_lengths_sum files
  · intro g
    simp only [organize_filter]
    exact filter_counts_sum files g

/-- Unfolding of the entry list of a built area. -/
theorem buildAreaScore_scoreEntries (sd : List (String × EntryResult)) (area : RubricArea) :
    (buildAreaScore sd area).scoreEntries = area.entries.map (buildEntryScore sd) := rfl

/-- Unfolding of the score of a built area. -/
theorem buildAreaScore_scorePercent (sd : List (String × EntryResult)) (area : RubricArea) :
    (buildAreaScore sd area).scorePercent =
      (if area.entries.isEmpty then 0
       else Int.tdiv (((area.entries.map (buildEntryScore sd)).map (fun e => e.scorePercent)).sum)
         (area.entries.length : Int)) := rfl

/-- Unfolding of the area list of a built scorecard. -/
theorem build_areaScores (sd : List (String × EntryResult)) (repo : RepoData) :
    (buildOriflameScorecard sd repo).areaScores = scorecardStructure.map (buildAreaScore sd) := rfl

/-- Unfolding of the overall score of a built scorecard. -/
theorem build_scorePercent (sd : List (String × EntryResult)) (repo : RepoData) :
    (buildOriflameScorecard sd repo).scorePercent =
      (if (scorecardStructure.map (buildAreaScore sd)).isEmpty then 0
       else Int.tdiv (((scorecardStructure.map (buildAreaScore sd)).map (fun a => a.scorePercent)).sum)
         ((scorecardStructure.map (buildAreaScore sd)).length : Int)) := rfl

/-- A list of scores within the 0-100 range has a sum within 0 to 100 times
its length. -/
theorem sum_bounds (l : List Int) (h : ∀ x ∈ l, 0 ≤ x ∧ x ≤ 100) :
    0 ≤ l.sum ∧ l.sum ≤ 100 * l.length := by
  induction l with
  | nil => simp
  | cons a t ih =>
    obtain ⟨ha1, ha2⟩ := h a (by simp)
    obtain ⟨ht1, ht2⟩ := ih (fun x hx => h x (by simp [hx]))
    simp only [List.sum_cons, List.length_cons]
    push_cast at ht2 ⊢
    constructor <;> omega

/-- For a sum of scores in range, the truncated quotient used by the source
equals the floor quotient, and the mean stays within 0-100. -/
theorem tdiv_mean_spec (s : Int) (n : Nat) (hn : 0 < n) (h0 : 0 ≤ s) (h100 : s ≤ 100 * n) :
    Int.tdiv s n = Int.fdiv s n ∧ 0 ≤ Int.tdiv s n ∧ Int.tdiv s n ≤ 100 := by
  have hn' : (0 : Int) ≤ (n : Int) := by exact_mod_cast Nat.zero_le n
  have ht : Int.tdiv s n = s / (n : Int) := Int.tdiv_eq_ediv h0 hn'
  have hf : Int.fdiv s n = s / (n : Int) := Int.fdiv_eq_ediv s hn'
  refine ⟨ht.trans hf.symm, ?_, ?_⟩
  · rw [ht]
    exact Int.ediv_nonneg h0 hn'
  · rw [ht]
    have hz : (0 : Int) < (n : Int) := by exact_mod_cast hn
    have hd := Int.ediv_le_ediv hz h100
    rwa [Int.mul_ediv_cancel 100 (by omega : (n : Int) ≠ 0)] at hd

/-- Entry lookup stays within score bounds when every present entry does:
the default used for a missing id is 50. -/
theorem lookupEntry_bounds (sd : List (String × EntryResult))
    (h : ∀ p ∈ sd, 0 ≤ p.2.score ∧ p.2.score ≤ 100) (key : String) :
    0 ≤ (lookupEntry sd key).score ∧ (lookupEntry sd key).score ≤ 100 := by
  rw [lookupEntry]
  cases hf : sd.find? (fun p => p.1 == key) with
  | none => simp
  | some p =>
    simp only [Option.map_some', Option.getD_some]
    exact h p (List.mem_of_find?_eq_some hf)

/-- Area-level floor-mean specification, for any rubric area with at least
one entry. -/
theorem buildAreaScore_spec (sd : List (String × EntryResult))
    (h : ∀ p ∈ sd, 0 ≤ p.2.score ∧ p.2.score ≤ 100) (area : RubricArea)
    (hne : area.entries ≠ []) :
    (buildAreaScore sd area).scorePercent =
      Int.fdiv (((buildAreaScore sd area).scoreEntries.map (fun e => e.scorePercent)).sum)
        ((buildAreaScore sd area).scoreEntries.length : Int)
    ∧ 0 ≤ (buildAreaScore sd area).scorePercent
    ∧ (buildAreaScore sd area).scorePercent ≤ 100 := by
  have hne' : area.entries.isEmpty = false := by
    cases hl : area.entries with
    | nil => exact absurd hl hne
    | cons a t => rfl
  have hbound : ∀ x ∈ ((area.entries.map (buildEntryScore sd)).map (fun e => e.scorePercent)),
      0 ≤ x ∧ x ≤ 100 := by
    intro x hx
    simp only [List.map_map, List.mem_map, Function.comp] at hx
    obtain ⟨en, _, hxe⟩ := hx
    have : (buildEntryScore sd en).scorePercent = (lookupEntry sd (toString en.id)).score := rfl
    rw [← hxe, this]
    exact lookupEntry_bounds sd h _
  obtain ⟨hs0, hs1⟩ := sum_bounds _ hbound
  have hlen : ((area.entries.map (buildEntryScore sd)).map (fun e => e.scorePercent)).length
      = area.entries.length := by simp
  rw [hlen] at hs1
  have hpos : 0 < area.entries.length := List.length_pos.mpr hne
  obtain ⟨he, h0, h100⟩ := tdiv_mean_spec _ area.entries.length hpos hs0 hs1
  rw [buildAreaScore_scorePercent, buildAreaScore_scoreEntries, hne', if_neg (by simp)]
  refine ⟨?_, h0, h100⟩
  rw [he]
  congr 1
  simp

/-- Full floor-mean and range specification of scorecard assembly, shared
by the in-range and fallback developments. -/
theorem buildScorecard_spec (sd : List (String × EntryResult)) (repo : RepoData)
    (h : ∀ p ∈ sd, 0 ≤ p.2.score ∧ p.2.score ≤ 100) :
    (∀ a ∈ (buildOriflameScorecard sd repo).areaScores,
        a.scorePercent =
          Int.fdiv ((a.scoreEntries.map (fun e => e.scorePercent)).sum) (a.scoreEntries.length : Int)
        ∧ 0 ≤ a.scorePercent ∧ a.scorePercent ≤ 100)
    ∧ (buildOriflameScorecard sd repo).scorePercent =
        Int.fdiv (((buildOriflameScorecard sd repo).areaScores.map (fun a => a.scorePercent)).sum)
          (((buildOriflameScorecard sd repo).areaScores.length : Int))
    ∧ 0 ≤ (buildOriflameScorecard sd repo).scorePercent
    ∧ (buildOriflameScorecard sd repo).scorePercent ≤ 100 := by
  have harea : ∀ a ∈ (buildOriflameScorecard sd repo).areaScores,
      a.scorePercent =
        Int.fdiv ((a.scoreEntries.map (fun e => e.scorePercent)).sum) (a.scoreEntries.length : Int)
      ∧ 0 ≤ a.scorePercent ∧ a.scorePercent ≤ 100 := by
    intro a ha
    rw [build_areaScores] at ha
    obtain ⟨area, hmem, rfl⟩ := List.mem_map.mp ha
    have hne : area.entries ≠ [] := by
      simp only [scorecardStructure, List.mem_cons, List.not_mem_nil, or_false] at hmem
      rcases hmem with rfl | rfl | rfl | rfl <;> simp
    exact buildAreaScore_spec sd h area hne
  have hbound : ∀ x ∈ ((buildOriflameScorecard sd repo).areaScores.map (fun a => a.scorePercent)),
      0 ≤ x ∧ x ≤ 100 := by
    intro x hx
    obtain ⟨a, ha, rfl⟩ := List.mem_map.mp hx
    exact ⟨(harea a ha).2.1, (harea a ha).2.2⟩
  obtain ⟨hs0, hs1⟩ := sum_bounds _ hbound
  have hlen : ((buildOriflameScorecard sd repo).areaScores.map (fun a => a.scorePercent)).length = 4 := by
    rw [build_areaScores]
    rfl
  rw [hlen] at hs1
  obtain ⟨he, h0, h100⟩ := tdiv_mean_spec _ 4 (by omega) hs0 hs1
  have hsp : (buildOriflameScorecard sd repo).scorePercent =
      Int.tdiv (((buildOriflameScorecard sd repo).areaScores.map (fun a => a.scorePercent)).sum)
        (((buildOriflameScorecard sd repo).areaScores.length : Int)) := by
    rw [build_scorePercent, build_areaScores, if_neg (by simp [scorecardStructure])]
  have hlen2 : (buildOriflameScorecard sd repo).areaScores.length = 4 := by
    rw [build_areaScores]
    rfl
  refine ⟨harea, ?_, ?_, ?_⟩
  · rw [hsp, hlen2]
    exact he
  · rw [hsp, hlen2]
    exact h0
  · rw [hsp, hlen2]
    exact h100

/-- C3: for every set of entry score results within the 0-100 range, each
area score is the floor of the mean of its entries' scores, the overall
score is the floor of the mean of the area scores, and both stay within
0 to 100. -/
theorem scorecard_scores_floor_mean :
  ∀ (sd : List (String × EntryResult)) (repo : RepoData),
    (∀ p ∈ sd, 0 ≤ p.2.score ∧ p.2.score ≤ 100) →
    (∀ a ∈ (buildOriflameScorecard sd repo).areaScores,
        a.scorePercent =
          Int.fdiv ((a.scoreEntries.map (fun e => e.scorePercent)).sum) (a.scoreEntries.length : Int)
        ∧ 0 ≤ a.scorePercent ∧ a.scorePercent ≤ 100)
    ∧ (buildOriflameScorecard sd repo).scorePercent =
        Int.fdiv (((buildOriflameScorecard sd repo).areaScores.map (fun a => a.scorePercent)).sum)
          (((buildOriflameScorecard sd repo).areaScores.length : Int))
    ∧ 0 ≤ (buildOriflameScorecard sd repo).scorePercent
    ∧ (buildOriflameScorecard sd repo).scorePercent ≤ 100 :=
  fun sd repo h => buildScorecard_spec sd repo h

/-- The empty repository bundle: no metadata name, no files anywhere. -/
def repoNone : RepoData := { metadataName := none, organized := emptyOrganized }

/-- Witness for C3: the empty entry mapping on the empty bundle yields an
overall score within bounds. -/
theorem scorecard_scores_floor_mean_witness :
    0 ≤ (buildOriflameScorecard [] repoNone).scorePercent
    ∧ (buildOriflameScorecard [] repoNone).scorePercent ≤ 100 :=
  ⟨(scorecard_scores_floor_mean [] repoNone (by simp)).2.2.1,
   (scorecard_scores_floor_mean [] repoNone (by simp)).2.2.2⟩

/-- C5: for every entry-score mapping, the assembled scorecard carries all
10 rubric entries with their rubric title, guidance text and score choices,
and every entry id missing from the mapping is defaulted to score 50 with
details `No analysis available`. -/
theorem missing_entries_defaulted :
  ∀ (sd : List (String × EntryResult)) (repo : RepoData),
    (((buildOriflameScorecard sd repo).areaScores.flatMap (fun a => a.scoreEntries)).map
        (fun e => (e.id, e.title, e.howToScore, e.scoreChoices))
      = (scorecardStructure.flatMap (fun a => a.entries)).map
          (fun en => (en.id, en.title, en.howToScore, en.scoreChoices)))
    ∧ ((scorecardStructure.flatMap (fun a => a.entries)).map (fun en => en.id)
        = [1, 2, 3, 4, 5, 6, 7, 8, 9, 10])
    ∧ (∀ e ∈ (buildOriflameScorecard sd repo).areaScores.flatMap (fun a => a.scoreEntries),
        sd.find? (fun p => p.1 == toString e.id) = none →
          e.scorePercent = 50 ∧ e.details = ("No analysis available")) := by
  intro sd repo
  refine ⟨rfl, rfl, ?_⟩
  intro e he hfind
  rw [build_areaScores] at he
  simp only [List.mem_flatMap, List.mem_map] at he
  obtain ⟨a, ⟨area, hmem, rfl⟩, hea⟩ := he
  rw [buildAreaScore_scoreEntries] at hea
  obtain ⟨en, hen, rfl⟩ := List.mem_map.mp hea
  have hfind' : sd.find? (fun p => p.1 == toString en.id) = none := hfind
  have h1 : (buildEntryScore sd en).scorePercent = (lookupEntry sd (toString en.id)).score := rfl
  have h2 : (buildEntryScore sd en).details = (lookupEntry sd (toString en.id)).details := rfl
  rw [h1, h2, lookupEntry, hfind']
  exact ⟨rfl, rfl⟩

/-- Witness for C5: with the empty entry mapping every entry id is missing,
all 10 entries are present carrying the rubric text, and every one is
defaulted to score 50 with details `No analysis available`. -/
theorem missing_entries_defaulted_witness :
    (((buildOriflameScorecard [] repoNone).areaScores.flatMap (fun a => a.scoreEntries)).map
        (fun e => (e.id, e.title, e.howToScore, e.scoreChoices))
      = (scorecardStructure.flatMap (fun a => a.entries)).map
          (fun en => (en.id, en.title, en.howToScore, en.scoreChoices)))
    ∧ (((buildOriflameScorecard [] repoNone).areaScores.flatMap (fun a => a.scoreEntries)).map
        (fun e => (e.scorePercent, e.details))
      = List.replicate 10 ((50 : Int), ("No analysis available"))) := by
  have h := missing_entries_defaulted [] repoNone
  refine ⟨h.1, ?_⟩
  rw [List.eq_replicate_iff]
  constructor
  · rfl
  · intro b hb
    obtain ⟨e, he, rfl⟩ := List.mem_map.mp hb
    obtain ⟨h50, hdet⟩ := h.2.2 e he rfl
    rw [h50, hdet]

/-- A non-empty list is not empty in the Boolean sense. -/
theorem isEmpty_false_of_ne {α : Type} {l : List α} (h : l ≠ []) : l.isEmpty = false := by
  cases l with
  | nil => exact absurd rfl h
  | cons a t => rfl

/-- Every score of the fallback heuristic table lies within 0 to 100. -/
theorem basicScores_bounds (o : Organized) :
    ∀ p ∈ basicScores o, 0 ≤ p.2.score ∧ p.2.score ≤ 100 := by
  intro p hp
  simp only [basicScores, List.mem_cons, List.not_mem_nil, or_false] at hp
  rcases hp with rfl | rfl | rfl | rfl | rfl | rfl | rfl | rfl | rfl | rfl <;>
    constructor <;> dsimp only <;>
    first
    | (split_ifs <;> decide)
    | decide

/-- When no attempt carries a response passing structural validation, every
path of the retry loop either raises into the outer handler or returns the
fallback, so `analyze_repository` resolves to the fallback scorecard. -/
theorem analyze_fallback (repo : RepoData) :
    ∀ attempts : List AttemptOutcome, noUsableResponse attempts →
      analyzeRepository repo attempts = createBasicScorecard repo := by
  intro attempts
  induction attempts with
  | nil => intro _; rfl
  | cons a rest ih =>
    intro h
    have hrest : noUsableResponse rest := fun j hj => h j (by simp [hj])
    cases rest with
    | nil =>
      cases a with
      | raised msg => rfl
      | empty => rfl
      | emptyAfterClean => rfl
      | unparsable raw => rfl
      | parsed j =>
        have hv := h j (by simp)
        simp [analyzeRepository, loopRun, hv]
    | cons b rest' =>
      cases a with
      | raised msg => rfl
      | empty => exact ih hrest
      | emptyAfterClean => exact ih hrest
      | unparsable raw => exact ih hrest
      | parsed j =>
        have hv := h j (by simp)
        have hstep : analyzeRepository repo (AttemptOutcome.parsed j :: b :: rest')
            = analyzeRepository repo (b :: rest') := by
          simp only [analyzeRepository, loopRun, hv, Bool.false_eq_true, if_false]
        rw [hstep]
        exact ih hrest

/-- C1: scoring never propagates a failure: whenever no attempt yields a
usable (validated) model response, `analyze_repository` resolves to the
deterministic fallback heuristic scorecard, and fallback construction is a
total function producing a well-formed 4-area, 10-entry scorecard with an
in-range overall score for every bundle, including one with zero files in
every category. -/
theorem analyze_repository_always_scorecard :
  ∀ (repo : RepoData) (attempts : List AttemptOutcome),
    (noUsableResponse attempts → analyzeRepository repo attempts = createBasicScorecard repo)
    ∧ (createBasicScorecard repo).areaScores.length = 4
    ∧ ((createBasicScorecard repo).areaScores.map (fun a => a.scoreEntries.length)).sum = 10
    ∧ 0 ≤ (createBasicScorecard repo).scorePercent
    ∧ (createBasicScorecard repo).scorePercent ≤ 100 := by
  intro repo attempts
  have hb := buildScorecard_spec (basicScores repo.organized) repo (basicScores_bounds repo.organized)
  exact ⟨analyze_fallback repo attempts, rfl, rfl, hb.2.2.1, hb.2.2.2⟩

/-- Three failed attempts: a raised model call, an empty response, and an
unparsable response. -/
def demoAttemptsFail : List AttemptOutcome :=
  [AttemptOutcome.raised ("model unavailable"), AttemptOutcome.empty,
   AttemptOutcome.unparsable ("not json")]

/-- Witness for C1: on the zero-file bundle with three failed attempts, the
analysis returns the fallback scorecard. -/
theorem analyze_repository_always_scorecard_witness :
    analyzeRepository repoNone demoAttemptsFail = createBasicScorecard repoNone :=
  (analyze_repository_always_scorecard repoNone demoAttemptsFail).1
    (by intro j hj; simp [demoAttemptsFail] at hj)

/-- C4: for a bundle with documentation present, no CI files and no build
files, and no usable model response, the fallback assigns exactly the fixed
table (documentation 80, static analysis 60, CI 30, dependency 40,
security 55, secrets 70, coverage 40, quality 50, with the code-structure
and configuration entries determined by their category's presence), the
presence/absence alternatives of the heuristic hold for every bundle, and
the overall score is the floor of the mean of the 4 area means. -/
theorem fallback_heuristic_table :
  ∀ (repo : RepoData) (attempts : List AttemptOutcome),
    repo.organized.documentation ≠ [] →
    repo.organized.ci_cd = [] →
    repo.organized.build_files = [] →
    noUsableResponse attempts →
    analyzeRepository repo attempts = createBasicScorecard repo
    ∧ (((createBasicScorecard repo).areaScores.flatMap (fun a => a.scoreEntries)).map
        (fun e => (e.id, e.scorePercent))
      = [(1, 80), (2, 60), (3, if repo.organized.source_code.isEmpty then 30 else 70),
         (4, 30), (5, 40), (6, if repo.organized.config_files.isEmpty then 30 else 60),
         (7, 55), (8, 70), (9, 40), (10, 50)])
    ∧ (∀ o : Organized,
        (lookupEntry (basicScores o) ("1")).score = (if o.documentation.isEmpty then 20 else 80)
        ∧ (lookupEntry (basicScores o) ("4")).score = (if o.ci_cd.isEmpty then 30 else 80)
        ∧ (lookupEntry (basicScores o) ("5")).score = (if o.build_files.isEmpty then 40 else 70))
    ∧ (createBasicScorecard repo).scorePercent =
        Int.fdiv (((createBasicScorecard repo).areaScores.map (fun a => a.scorePercent)).sum) 4 := by
  intro repo attempts hdoc hci hbuild hnou
  have hdoc' : repo.organized.documentation.isEmpty = false := isEmpty_false_of_ne hdoc
  have hci' : repo.organized.ci_cd.isEmpty = true := by rw [hci]; rfl
  have hbuild' : repo.organized.build_files.isEmpty = true := by rw [hbuild]; rfl
  refine ⟨analyze_fallback repo attempts hnou, ?_, fun o => ⟨rfl, rfl, rfl⟩, ?_⟩
  · rw [createBasicScorecard, basicScores, hdoc', hci', hbuild']
    rfl
  · have hb := buildScorecard_spec (basicScores repo.organized) repo (basicScores_bounds repo.organized)
    have hlen : (buildOriflameScorecard (basicScores repo.organized) repo).areaScores.length = 4 := rfl
    have hover := hb.2.1
    rw [hlen] at hover
    exact_mod_cast hover

/-- A README file as the loader collects it. -/
def demoReadme : FileData :=
  { path := ("README.md"), name := ("README.md"), size := 10,
    content := ("hello"), extension := (".md") }

/-- A bundle with one documentation file and nothing else. -/
def demoRepoDoc : RepoData :=
  { metadataName := some ("demo"),
    organized := { source_code := [], config_files := [], documentation := [demoReadme],
                   build_files := [], ci_cd := [], other := [] } }

/-- Witness for C4: on the documentation-only bundle with three failed
attempts, analysis returns the fallback, whose overall score evaluates to
the floor of the mean of the 4 area means, 49. -/
theorem fallback_heuristic_table_witness :
    analyzeRepository demoRepoDoc demoAttemptsFail = createBasicScorecard demoRepoDoc
    ∧ (createBasicScorecard demoRepoDoc).scorePercent = 49 :=
  ⟨(fallback_heuristic_table demoRepoDoc demoAttemptsFail (by decide) rfl rfl
      (by intro j hj; simp [demoAttemptsFail] at hj)).1,
   by decide⟩

/-- C6: the status label is a pure function of the score with closed-interval
thresholds: a score of at least 90 yields `excellent`, of at least 70 and
below 90 yields `good`, of at least 50 and below 70 yields `warning`, and
below 50 yields `error`. -/
theorem score_success_thresholds :
  ∀ s : Int,
    (90 ≤ s → getScoreSuccess s = ("excellent"))
    ∧ (70 ≤ s → s < 90 → getScoreSuccess s = ("good"))
    ∧ (50 ≤ s → s < 70 → getScoreSuccess s = ("warning"))
    ∧ (s < 50 → getScoreSuccess s = ("error")) := by
  intro s
  refine ⟨?_, ?_, ?_, ?_⟩ <;> intros <;> simp only [getScoreSuccess] <;> split_ifs <;>
    first
    | rfl
    | omega

/-- Witness for C6: the boundary scores 90, 89, 70, 69, 50, 49 receive the
labels the claim lists. -/
theorem score_success_thresholds_samples :
  getScoreSuccess 90 = ("excellent") ∧ getScoreSuccess 89 = ("good")
  ∧ getScoreSuccess 70 = ("good") ∧ getScoreSuccess 69 = ("warning")
  ∧ getScoreSuccess 50 = ("warning") ∧ getScoreSuccess 49 = ("error") :=
  ⟨(score_success_thresholds 90).1 (by decide),
   (score_success_thresholds 89).2.1 (by decide) (by decide),
   (score_success_thresholds 70).2.1 (by decide) (by decide),
   (score_success_thresholds 69).2.2.1 (by decide) (by decide),
   (score_success_thresholds 50).2.2.1 (by decide) (by decide),
   (score_success_thresholds 49).2.2.2 (by decide)⟩

/-- C8: the write request carries the stored revision marker unchanged
(omitting it exactly when no marker exists), always targets branch `main`,
and always addresses the fixed file `component-score.json`. -/
theorem commit_request_marker :
  ∀ (r : ShaLookupResponse) (content owner repoName : String),
    (commitData (getFileSha r) content).sha = getFileSha r
    ∧ (∀ s, getFileSha (ShaLookupResponse.ok s) = some s)
    ∧ getFileSha ShaLookupResponse.notFound = none
    ∧ (commitData (getFileSha r) content).branch = ("main")
    ∧ commitUrl owner repoName =
        ("https://api.github.com/repos/") ++ owner ++ ("/") ++ repoName
          ++ ("/contents/component-score.json") := by
  intro r content owner repoName
  refine ⟨?_, fun s => rfl, rfl, ?_, ?_⟩
  · cases r <;> rfl
  · cases r <;> rfl
  · rw [commitUrl, String.append_assoc]
    rfl

/-- C7: the routing function terminates the pipeline whenever the status is
`failed` or the error list is non-empty, and otherwise maps `repo_loaded` to
the scorer, `scoring_complete` to the committer, and `complete` or any
unknown status to termination. -/
theorem check_success_routing :
  ∀ st : PipelineState,
    ((st.processingStatus = ("failed") ∨ st.errors ≠ []) → checkSuccess st = ("END"))
    ∧ (st.errors = [] →
        (st.processingStatus = ("repo_loaded") → checkSuccess st = ("scoring_agent"))
        ∧ (st.processingStatus = ("scoring_complete") → checkSuccess st = ("commit_agent"))
        ∧ (st.processingStatus = ("complete") → checkSuccess st = ("END"))
        ∧ (st.processingStatus ∉ ([("repo_loaded"), ("scoring_complete"), ("complete")] : List String) →
             checkSuccess st = ("END"))) := by
  intro st
  constructor
  · intro h
    rw [checkSuccess, if_pos h]
  · intro he
    have hroute : ∀ status : String, st.processingStatus = status → status ≠ ("failed") →
        checkSuccess st =
          (((routingMap.find? (fun p => p.1 == status)).map (fun p => p.2)).getD ("END")) := by
      intro status hs hne
      have hcond : ¬(st.processingStatus = ("failed") ∨ st.errors ≠ []) := by
        rw [hs, he]
        simp [hne]
      rw [checkSuccess, if_neg hcond, hs]
    refine ⟨?_, ?_, ?_, ?_⟩
    · intro hs
      rw [hroute _ hs (by decide)]
      rfl
    · intro hs
      rw [hroute _ hs (by decide)]
      rfl
    · intro hs
      rw [hroute _ hs (by decide)]
      rfl
    · intro hs
      simp only [List.mem_cons, List.not_mem_nil, or_false, not_or] at hs
      obtain ⟨h1, h2, h3⟩ := hs
      by_cases hf : st.processingStatus = ("failed")
      · rw [checkSuccess, if_pos (Or.inl hf)]
      · rw [hroute _ rfl hf]
        have hfind : routingMap.find? (fun p => p.1 == st.processingStatus) = none := by
          rw [List.find?_eq_none]
          intro x hx
          simp only [routingMap, List.mem_cons, List.not_mem_nil, or_false] at hx
          rcases hx with h | h | h
          · subst h
            simp only [beq_iff_eq]
            exact fun hh => h1 hh.symm
          · subst h
            simp only [beq_iff_eq]
            exact fun hh => h2 hh.symm
          · subst h
            simp only [beq_iff_eq]
            exact fun hh => h3 hh.symm
        rw [hfind]
        rfl

/-- ASCII lowering maps no character onto the dot. -/
theorem toLower_eq_dot {c : Char} (h : Char.toLower c = '.') : c = '.' := by
  simp only [Char.toLower] at h
  split at h
  · next hc =>
    exfalso
    obtain ⟨h1, h2⟩ := hc
    set m := c.toNat + 32 with hm
    have hub : m ≤ 122 := by omega
    have hlb : 97 ≤ m := by omega
    interval_cases m <;> exact absurd h (by decide)
  · exact h

/-- Dot tests commute with ASCII lowering. -/
theorem toLower_beq_dot (c : Char) : (Char.toLower c == '.') = (c == '.') := by
  by_cases h : c = '.'
  · subst h
    decide
  · have h2 : Char.toLower c ≠ '.' := fun hc => h (toLower_eq_dot hc)
    simp [h, h2]

/-- The splitext extension commutes with characterwise ASCII lowering. -/
theorem extSplit_map (cs : List Char) :
    extSplit (cs.map Char.toLower) = (extSplit cs).map Char.toLower := by
  have hpred : ((fun c => !(c == '.')) ∘ Char.toLower) = (fun c => !(c == '.')) := by
    funext c
    simp only [Function.comp]
    rw [toLower_beq_dot c]
  have hdot : Char.toLower '.' = '.' := by decide
  simp only [extSplit]
  rw [← List.map_reverse, List.takeWhile_map, List.dropWhile_map, hpred]
  cases hd : cs.reverse.dropWhile (fun c => !(c == '.')) with
  | nil => simp
  | cons a before =>
    simp only [List.map_cons]
    rw [List.any_map, hpred]
    cases hb : before.any (fun c => !(c == '.'))
    all_goals simp [hb, List.map_reverse, hdot]

/-- The splitext extension of the lowered name is the lowered extension of
the name, as the loader computes it. -/
theorem pyExt_lower (s : String) : pyExt (lower s) = lower (pyExt s) := by
  show String.mk (extSplit (s.data.map Char.toLower)) = String.mk ((extSplit s.data).map Char.toLower)
  rw [extSplit_map]

/-- A file classified into `build_files` failed the source, config and doc
rules and passed the build-name rule. -/
theorem categorize_build_elim (f : FileData) (h : categorize f = Category.build_files) :
    isSourceCodeFile f = false ∧ isConfigFile f = false ∧ isDocumentationFile f = false
    ∧ isBuildFile f = true := by
  rw [categorize] at h
  split_ifs at h with h1 h2 h3 h4 h5
  all_goals simp_all

/-- C10: under the loader's extension computation, the classifier can place
only files named `build.gradle` into `build_files` (every other build name
is captured by an earlier extension rule), so the manifest search of
`extract_key_files_content` over `build_files` never finds a manifest. -/
theorem build_files_only_gradle :
  ∀ files : List FileData,
    (∀ f ∈ files, f.extension = lower (pyExt f.name)) →
    (∀ f ∈ (organizeFilesByType files).build_files, lower f.name = ("build.gradle"))
    ∧ findManifestFile (organizeFilesByType files) = none := by
  intro files hext
  have hmain : ∀ f ∈ (organizeFilesByType files).build_files, lower f.name = ("build.gradle") := by
    intro f hf
    have hmem : f ∈ files.filter (fun g => categorize g == Category.build_files) := by
      rw [← organize_filter files Category.build_files]
      exact hf
    rw [List.mem_filter] at hmem
    obtain ⟨hfile, hcatb⟩ := hmem
    have hcat : categorize f = Category.build_files := by simpa [beq_iff_eq] using hcatb
    obtain ⟨hsrc, hcfg, hdoc, hbld⟩ := categorize_build_elim f hcat
    have hx : f.extension = pyExt (lower f.name) := by rw [hext f hfile, pyExt_lower]
    rw [isBuildFile] at hbld
    have hnames : lower f.name = ("package.json") ∨ lower f.name = ("requirements.txt")
        ∨ lower f.name = ("pom.xml") ∨ lower f.name = ("build.gradle")
        ∨ lower f.name = ("setup.py") ∨ lower f.name = ("cargo.toml") := by
      simpa [buildFileNames] using hbld
    rcases hnames with hk | hk | hk | hk | hk | hk
    · exfalso
      rw [hk] at hx
      have hxe : f.extension = (".json") := by
        rw [hx]
        decide
      rw [isConfigFile, hxe, show configExts.contains (".json") = true from by decide] at hcfg
      simp at hcfg
    · exfalso
      rw [hk] at hx
      have hxe : f.extension = (".txt") := by
        rw [hx]
        decide
      rw [isDocumentationFile, hxe, show docExts.contains (".txt") = true from by decide] at hdoc
      simp at hdoc
    · exfalso
      rw [hk] at hx
      have hxe : f.extension = (".xml") := by
        rw [hx]
        decide
      rw [isConfigFile, hxe, show configExts.contains (".xml") = true from by decide] at hcfg
      simp at hcfg
    · exact hk
    · exfalso
      rw [hk] at hx
      have hxe : f.extension = (".py") := by
        rw [hx]
        decide
      rw [isSourceCodeFile, hxe, show sourceCodeExts.contains (".py") = true from by decide] at hsrc
      simp at hsrc
    · exfalso
      rw [hk] at hx
      have hxe : f.extension = (".toml") := by
        rw [hx]
        decide
      rw [isConfigFile, hxe, show configExts.contains (".toml") = true from by decide] at hcfg
      simp at hcfg
  refine ⟨hmain, ?_⟩
  rw [findManifestFile, List.find?_eq_none]
  intro f hf
  rw [hmain f hf]
  decide

/-- A `build.gradle` file as the loader collects it. -/
def demoGradle : FileData :=
  { path := ("build.gradle"), name := ("build.gradle"), size := 1,
    content := ("plugins"), extension := (".gradle") }

/-- A `package.json` file as the loader collects it. -/
def demoPackageJson : FileData :=
  { path := ("package.json"), name := ("package.json"), size := 1,
    content := ("deps"), extension := (".json") }

/-- Witness for C10: with a manifest file and a gradle file present, the
bundle's manifest search over `build_files` finds nothing. -/
theorem build_files_only_gradle_witness :
    findManifestFile (organizeFilesByType [demoPackageJson, demoGradle]) = none :=
  (build_files_only_gradle [demoPackageJson, demoGradle] (by decide)).2

/-- Stripping is unaffected by one more leading slash. -/
theorem stripSlashChars_cons_slash (cs : List Char) :
    stripSlashChars ('/' :: cs) = stripSlashChars cs := by
  simp [stripSlashChars, List.dropWhile]

/-- Stripping is unaffected by one more trailing slash. -/
theorem stripSlashChars_append_slash (cs : List Char) :
    stripSlashChars (cs ++ ['/']) = stripSlashChars cs := by
  unfold stripSlashChars
  rw [List.dropWhile_append]
  by_cases hd : (cs.dropWhile (fun c => c == '/')).isEmpty
  · rw [if_pos hd]
    have hnil : cs.dropWhile (fun c => c == '/') = [] := by
      cases h : cs.dropWhile (fun c => c == '/') with
      | nil => rfl
      | cons a t =>
        rw [h] at hd
        simp at hd
    rw [hnil]
    rfl
  · rw [if_neg hd]
    rw [List.reverse_append]
    simp [List.dropWhile]

/-- C9 counterexample: the code removes every occurrence of `.git` from the
second path segment, not only a trailing suffix: on the path `o/a.gitb`
it returns the repo name `ab`, while a trailing-suffix strip of the second
segment `a.gitb` leaves it unchanged. -/
theorem parse_github_url_counterexample :
    parseGithubUrl ("o/a.gitb") = some (("o" : String), ("ab" : String))
    ∧ stripSuffixGit ("a.gitb") = ("a.gitb")
    ∧ (("ab" : String)) ≠ ("a.gitb") := by
  refine ⟨by decide, by decide, by decide⟩

/-- C9 (amended): for every URL path with at least two segments after
stripping outer slashes, parsing returns the first segment as owner and the
second segment with every occurrence of `.git` removed as repo; with fewer
than two segments it fails; and one more leading or trailing slash never
changes the result. -/
theorem parse_github_url_segments :
  ∀ path : String,
    (∀ owner repo rest, splitSlash (stripSlashChars path.data) = owner :: repo :: rest →
       parseGithubUrl path = some (⟨owner⟩, ⟨removeGit repo⟩))
    ∧ ((splitSlash (stripSlashChars path.data)).length < 2 → parseGithubUrl path = none)
    ∧ parseGithubUrl (path ++ ("/")) = parseGithubUrl path
    ∧ parseGithubUrl (("/") ++ path) = parseGithubUrl path := by
  intro path
  refine ⟨?_, ?_, ?_, ?_⟩
  · intro owner repo rest hsplit
    rw [parseGithubUrl, hsplit]
  · intro hlen
    rw [parseGithubUrl]
    cases hsplit : splitSlash (stripSlashChars path.data) with
    | nil => rfl
    | cons a t =>
      cases t with
      | nil => rfl
      | cons b t' =>
        rw [hsplit] at hlen
        simp at hlen
        omega
  · rw [parseGithubUrl, parseGithubUrl, String.data_append,
      show ("/" : String).data = ['/'] from rfl, stripSlashChars_append_slash]
  · rw [parseGithubUrl, parseGithubUrl, String.data_append,
      show ("/" : String).data = ['/'] from rfl, List.singleton_append,
      stripSlashChars_cons_slash]

/-- Witness for C9 (amended): a two-segment path with a trailing `.git`
suffix parses to its owner and suffix-free repo name. -/
theorem parse_github_url_segments_witness :
    parseGithubUrl ("/octocat/Hello-World.git") = some (("octocat" : String), ("Hello-World" : String)) := by
  have h := (parse_github_url_segments ("/octocat/Hello-World.git")).1
    (("octocat" : String).data) (("Hello-World.git" : String).data) [] (by decide)
  rw [h]
  decide

/-- Witness for C7: termination on a `failed` status and on a recorded
error, and the status-to-node map on concrete states. -/
theorem check_success_routing_samples :
  checkSuccess { repoUrl := none, processingStatus := ("failed"), errors := [] } = ("END")
  ∧ checkSuccess { repoUrl := none, processingStatus := ("repo_loaded"),
                   errors := [("Repository loading error")] } = ("END")
  ∧ checkSuccess { repoUrl := none, processingStatus := ("repo_loaded"), errors := [] } = ("scoring_agent")
  ∧ checkSuccess { repoUrl := none, processingStatus := ("scoring_complete"), errors := [] } = ("commit_agent")
  ∧ checkSuccess { repoUrl := none, processingStatus := ("complete"), errors := [] } = ("END")
  ∧ checkSuccess { repoUrl := none, processingStatus := ("initialized"), errors := [] } = ("END") :=
  ⟨(check_success_routing _).1 (Or.inl rfl),
   (check_success_routing _).1 (Or.inr (by simp)),
   ((check_success_routing _).2 rfl).1 rfl,
   ((check_success_routing _).2 rfl).2.1 rfl,
   ((check_success_routing _).2 rfl).2.2.1 rfl,
   ((check_success_routing _).2 rfl).2.2.2 (by simp)⟩

end Backstage
